import Mathlib

/-!
Shallow embedding of the playlist-transfer engine
(`backend/services/transfer_service.py`, `backend/services/base.py`,
`backend/utils/helpers.py`, and the provider adapters), together with
proofs of the specification's claims about it.

Machine strings are modelled as Lean `String`/`List Char`; the regex
character classes `\w` and `\s` are modelled over the ASCII range that the
code's inputs use.  Python's `int(((idx+1)/len(tracks))*100)` is evaluated
in IEEE-754 binary64 arithmetic, and is modelled bit-exactly: the integer
division is rounded to nearest-even at 53 significant bits, the product
with `100` is rounded again, and the result is truncated toward zero.
Exponents are unbounded in the model; since CPython lists are bounded by
`sys.maxsize < 2^63`, every intermediate lies in the binary64 normal
range, where unbounded-exponent rounding coincides with IEEE-754 exactly.
-/

namespace ThatsAWrap

/-- Model of the regex class `\w` (letters, digits and the underscore),
used in `sanitize_search_query`'s pattern `[^\w\s'-]`. -/
def isWordChar (c : Char) : Bool :=
  c.isAlpha || c.isDigit || c == '_'

/-- Model of the regex class `\s` (space, tab, newline, carriage return,
vertical tab, form feed). -/
def isSpaceChar (c : Char) : Bool :=
  c == ' ' || c == '\t' || c == '\n' || c == '\x0d' || c == '\x0b' || c == '\x0c'

/-- The characters the substitution `re.sub(r"[^\w\s'-]", ' ', text)`
leaves in place: word characters, whitespace, the apostrophe and the
hyphen (helpers.py line 58). -/
def isKeptChar (c : Char) : Bool :=
  isWordChar c || isSpaceChar c || c == '\x27' || c == '-'

/-- Scan for the first occurrence of the closing character `cl` and return
the remainder of the list after it, or `none` when `cl` never occurs.
This is the extent of the greedy-but-bounded match `[^)]*\)` (resp.
`[^\]]*\]`) after an opening delimiter. -/
def dropThroughClose (cl : Char) : List Char → Option (List Char)
  | [] => none
  | c :: rest => if c == cl then some rest else dropThroughClose cl rest

theorem dropThroughClose_length {cl : Char} :
    ∀ {l r : List Char}, dropThroughClose cl l = some r → r.length < l.length := by
  intro l
  induction l with
  | nil => intro r h; simp [dropThroughClose] at h
  | cons c rest ih =>
    intro r h
    simp only [dropThroughClose] at h
    split at h
    · injection h with h; subst h; simp
    · exact Nat.lt_trans (ih h) (by simp)

/-- Model of `re.sub(r'\([^)]*\)', '', text)` (and of the bracket variant):
leftmost non-overlapping matches of an opening delimiter `op`, a run of
non-closing characters, and the closing delimiter `cl` are deleted; an
opening delimiter with no later closing one does not match and is kept
(helpers.py lines 51 and 54). -/
def removeEnclosed (op cl : Char) : List Char → List Char
  | [] => []
  | c :: rest =>
    if c == op then
      match h : dropThroughClose cl rest with
      | some rest2 => removeEnclosed op cl rest2
      | none => c :: removeEnclosed op cl rest
    else
      c :: removeEnclosed op cl rest
termination_by l => l.length
decreasing_by
  · have := dropThroughClose_length h
    simp only [List.length_cons]
    omega
  · simp
  · simp

/-- Model of `re.sub(r"[^\w\s'-]", ' ', text)` (helpers.py line 58):
every non-kept character becomes a single space character. -/
def replaceSpecial (l : List Char) : List Char :=
  l.map fun c => if isKeptChar c then c else ' '

/-- Model of `re.sub(r'\s+', ' ', text)` (helpers.py line 61): every
maximal run of whitespace characters becomes one space. -/
def collapseSpaces : List Char → List Char
  | [] => []
  | c :: rest =>
    if isSpaceChar c then ' ' :: collapseSpaces (rest.dropWhile isSpaceChar)
    else c :: collapseSpaces rest
termination_by l => l.length
decreasing_by
  · have := (List.dropWhile_suffix (l := rest) isSpaceChar).length_le
    simp only [List.length_cons]
    omega
  · simp

/-- Model of `str.strip()` (helpers.py line 64): drop leading and trailing
whitespace. -/
def stripChars (l : List Char) : List Char :=
  ((l.dropWhile isSpaceChar).reverse.dropWhile isSpaceChar).reverse

/-- The sanitisation pipeline of `sanitize_search_query` on character
lists, in source order: parenthesised segments, bracketed segments,
special characters, whitespace runs, outer whitespace. -/
def sanitizeList (text : List Char) : List Char :=
  stripChars (collapseSpaces (replaceSpecial
    (removeEnclosed '[' ']' (removeEnclosed '(' ')' text))))

/-- Embedding of `sanitize_search_query` (helpers.py lines 35-66),
including the leading `if not text: return ''` falsy check. -/
def sanitize_search_query (text : String) : String :=
  if text = "" then "" else String.mk (sanitizeList text.data)

/-- The character class the specification claims for `sanitize` output:
letters, digits, the space, the apostrophe and the hyphen (no
underscore).  Stated from the spec's words, for comparison with the
code's `isKeptChar`. -/
def specKeptChar (c : Char) : Bool :=
  c.isAlpha || c.isDigit || c == ' ' || c == '\x27' || c == '-'

/-- Rounding to the nearest integer of the fraction `num / den`, halves
up.  Stated from the spec's words `round(100 * (index+1) / total)`, for
comparison with the code's truncation. -/
def specRound (num den : Nat) : Nat :=
  (2 * num + den) / (2 * den)

/-- A source track as consumed by `transfer_playlist`: its display name
(`track.get('name', '')`) and list of artist names (`track['artists']`). -/
structure Track where
  name : String
  artists : List String
deriving DecidableEq

/-- Observable actions of one transfer, in program order: the Progress
Store writes of `set_progress` with all four stored fields, the periodic
`get_valid_token` call on the destination, and the destination's
`search_track` and `add_track_to_playlist` calls. -/
inductive Event where
  | setProgress (user : String) (progress added total : Nat) (current_track : String)
  | getValidToken
  | searchTrack (track_name artist_name : String)
  | addTrack (playlist_id track_id : String)
deriving DecidableEq

/-- The destination adapter as `transfer_playlist` sees it: the results
its three provider calls return.  `create_playlist` raises (models the
`raise Exception` paths) or returns the playlist id. -/
structure Dest where
  create_playlist : String → String → Except String String
  search_track : String → String → Option String
  add_track_to_playlist : String → String → Bool

/-- The loop state of `transfer_playlist`: `added_count`, the `not_found`
list, and the trace of events emitted so far. -/
structure LoopState where
  added : Nat
  not_found : List String
  events : List Event

/-- Fuel-driven binary logarithm: `log2Fuel f n` is `⌊log2 n⌋` whenever
`n ≤ 2^f` (and `n ≥ 1`).  Structural recursion on the fuel keeps it
kernel-computable. -/
def log2Fuel : Nat → Nat → Nat
  | 0, _ => 0
  | f + 1, n => if n ≤ 1 then 0 else log2Fuel f (n / 2) + 1

/-- `⌊log2 n⌋` for `n ≥ 1` (`n` itself is always enough fuel). -/
def natLog2 (n : Nat) : Nat := log2Fuel n n

/-- Round the non-negative fraction `num / den` to the nearest integer,
ties to even — the rounding IEEE-754 applies to an infinitely precise
result. -/
def rneNat (num den : Nat) : Nat :=
  if 2 * (num % den) < den then num / den
  else if den < 2 * (num % den) then num / den + 1
  else if (num / den) % 2 = 0 then num / den else num / den + 1

/-- Round a rational to the nearest integer, ties to even (proof-layer
mirror of `rneNat`). -/
def rne (x : ℚ) : ℤ :=
  if x - ⌊x⌋ < 1/2 then ⌊x⌋
  else if 1/2 < x - ⌊x⌋ then ⌊x⌋ + 1
  else if ⌊x⌋ % 2 = 0 then ⌊x⌋ else ⌊x⌋ + 1

/-- `⌊log2 x⌋` of a positive rational (proof layer). -/
def qlog2 (x : ℚ) : ℤ :=
  if x < (2:ℚ) ^ ((natLog2 x.num.toNat : ℤ) - (natLog2 x.den : ℤ)) then
    (natLog2 x.num.toNat : ℤ) - (natLog2 x.den : ℤ) - 1
  else (natLog2 x.num.toNat : ℤ) - (natLog2 x.den : ℤ)

/-- Binary64 rounding of a positive rational: round the 53-bit-scaled
value to nearest-even and scale back (proof layer). -/
def roundB64Pos (x : ℚ) : ℚ :=
  (rne (x * 2 ^ ((52:ℤ) - qlog2 x)) : ℚ) * 2 ^ (qlog2 x - 52)

/-- Binary64 rounding (round to nearest, ties to even, 53-bit
significand, unbounded exponent): the correctly-rounded double value of
an exact non-negative rational (proof layer). -/
def roundB64 (x : ℚ) : ℚ :=
  if 0 < x then roundB64Pos x else 0

/-- The binary64 exponent of the quotient `n / d`: the unique `e` with
`2^e ≤ n/d < 2^(e+1)`, computed from `natLog2` of both sides plus one
integer comparison. -/
def floatDivExp (n d : Nat) : Int :=
  if n * 2 ^ natLog2 d < d * 2 ^ natLog2 n then (natLog2 n : Int) - (natLog2 d : Int) - 1
  else (natLog2 n : Int) - (natLog2 d : Int)

/-- The 53-bit significand of the correctly-rounded double quotient
`n / d`: the quotient scaled into `[2^52, 2^53)` and rounded to
nearest-even. -/
def floatDivMant (n d : Nat) : Nat :=
  if floatDivExp n d ≤ 52 then rneNat (n * 2 ^ (52 - floatDivExp n d).toNat) d
  else rneNat n (d * 2 ^ (floatDivExp n d - 52).toNat)

/-- The double quotient `n / d` (Python true division of two ints) as a
significand-exponent pair: the value is `mant * 2^exp`. -/
def floatDiv (n d : Nat) : Nat × Int := (floatDivMant n d, floatDivExp n d - 52)

/-- Bit length bookkeeping for the product with `100`. -/
def fm100L (m : Nat) : Nat := natLog2 (m * 100)

/-- The 53-bit significand of the double product `(m * 2^E) * 100`:
`m * 100` needs rounding only when it exceeds 53 bits. -/
def fm100M (m : Nat) : Nat :=
  if fm100L m ≤ 52 then m * 100 * 2 ^ (52 - fm100L m)
  else rneNat (m * 100) (2 ^ (fm100L m - 52))

/-- `int((m * 2^E) * 100.0)`: the correctly-rounded double product,
truncated toward zero (the value is non-negative, so truncation is
floor). -/
def floatMul100Trunc (m : Nat) (E : Int) : Nat :=
  if 0 ≤ (fm100L m : Int) + E - 52 then fm100M m * 2 ^ ((fm100L m : Int) + E - 52).toNat
  else fm100M m / 2 ^ (-((fm100L m : Int) + E - 52)).toNat

/-- The per-track progress value `int(((idx + 1) / len(tracks)) * 100)`
(transfer_service.py line 59), evaluated exactly as CPython does in
binary64: correctly-rounded division, correctly-rounded multiplication
by 100, truncation.  It can fall below the exact floor — e.g.
`progressPct 28 100 = 28` while `⌊100·29/100⌋ = 29`.  `total = 0` never
reaches this expression in the code (the loop body is unreachable). -/
def progressPct (idx total : Nat) : Nat :=
  if total = 0 then 0
  else floatMul100Trunc (floatDiv (idx + 1) total).1 (floatDiv (idx + 1) total).2

/-- `track['artists'][0]['name'] if track.get('artists') else ''`
(transfer_service.py line 64). -/
def firstArtist (t : Track) : String :=
  match t.artists with
  | [] => ""
  | a :: _ => a

/-- The `f'{track_name} - {artist_name}'` label recorded in `not_found`. -/
def trackLabel (t : Track) : String :=
  t.name ++ " - " ++ firstArtist t

/-- The body of the `for idx, track in enumerate(tracks)` loop
(transfer_service.py lines 54-85).  A `none` track is the falsy entry
skipped by `if not track: continue`; otherwise the progress write, the
periodic token refresh, the search, and the append-or-record outcome
happen in source order. -/
def processTrack (dest : Dest) (user playlist_id_dest : String) (total idx : Nat)
    (t : Option Track) (s : LoopState) : LoopState :=
  match t with
  | none => s
  | some track =>
    let progress := progressPct idx total
    let e1 := [Event.setProgress user progress s.added total ""]
    let track_name := track.name
    let artist_name := firstArtist track
    let e2 := if idx % 20 == 0 then [Event.getValidToken] else []
    let e3 := [Event.searchTrack track_name artist_name]
    match dest.search_track track_name artist_name with
    | some track_id =>
      if dest.add_track_to_playlist playlist_id_dest track_id then
        { added := s.added + 1, not_found := s.not_found,
          events := s.events ++ e1 ++ e2 ++ e3 ++ [Event.addTrack playlist_id_dest track_id] }
      else
        { added := s.added, not_found := s.not_found ++ [trackLabel track],
          events := s.events ++ e1 ++ e2 ++ e3 ++ [Event.addTrack playlist_id_dest track_id] }
    | none =>
      { added := s.added, not_found := s.not_found ++ [trackLabel track],
        events := s.events ++ e1 ++ e2 ++ e3 }

/-- The `enumerate` loop itself: fold `processTrack` over the track list
with a running zero-based index. -/
def runLoop (dest : Dest) (user pid : String) (total : Nat) :
    Nat → List (Option Track) → LoopState → LoopState
  | _, [], s => s
  | idx, t :: rest, s =>
    runLoop dest user pid total (idx + 1) rest (processTrack dest user pid total idx t s)

/-- The dictionary returned by `transfer_playlist`
(transfer_service.py lines 93-100). -/
structure TransferResult where
  success : Bool
  playlist_name : String
  total_tracks : Nat
  tracks_added : Nat
  tracks_not_found : Nat
  not_found_list : List String
deriving DecidableEq

/-- Model of Python `str.title()` over ASCII letters, used for
`self.source.service_name.title()`: a letter not preceded by a letter is
uppercased, any other letter lowercased. -/
def pyTitleGo : Bool → List Char → List Char
  | _, [] => []
  | prevAlpha, c :: rest =>
    if c.isAlpha then (if prevAlpha then c.toLower else c.toUpper) :: pyTitleGo true rest
    else c :: pyTitleGo false rest

/-- `str.title()` on strings. -/
def pyTitle (s : String) : String :=
  String.mk (pyTitleGo false s.data)

/-- Embedding of `TransferService.transfer_playlist`
(transfer_service.py lines 21-100).  The source playlist has already been
fetched (its name and flattened track list are inputs); the returned pair
is the result — `Except.error` models the exception a failed
`create_playlist` raises — together with the full event trace. -/
def transfer_playlist (dest : Dest) (source_service_name playlist_name : String)
    (tracks : List (Option Track)) (user_id : String) :
    Except String TransferResult × List Event :=
  let ev0 : List Event := [Event.setProgress user_id 0 0 0 ""]
  match dest.create_playlist playlist_name
      ("Transferred from " ++ pyTitle source_service_name) with
  | .error e => (.error e, ev0)
  | .ok playlist_id_dest =>
    let s := runLoop dest user_id playlist_id_dest tracks.length 0 tracks
      { added := 0, not_found := [], events := [] }
    (.ok { success := decide (s.added > 0), playlist_name := playlist_name,
           total_tracks := tracks.length, tracks_added := s.added,
           tracks_not_found := s.not_found.length,
           not_found_list := s.not_found.take 10 },
     ev0 ++ s.events ++ [Event.setProgress user_id 100 s.added tracks.length ""])

/-- The successive `progress` percentages written to the Progress Store,
in order, extracted from a trace. -/
def progressTrace (evs : List Event) : List Nat :=
  evs.filterMap fun e =>
    match e with
    | .setProgress _ p _ _ _ => some p
    | _ => none

/-- The successive `current_track` fields written to the Progress Store. -/
def currentTrackTrace (evs : List Event) : List String :=
  evs.filterMap fun e =>
    match e with
    | .setProgress _ _ _ _ ct => some ct
    | _ => none

/-- Whether an event is a destination search or append call. -/
def isSearchOrAppend (e : Event) : Bool :=
  match e with
  | .searchTrack _ _ => true
  | .addTrack _ _ => true
  | _ => false

/-- Embedding of `TidalService.create_playlist`
(tidal_service.py lines 190-233), as a function of the provider
response: its HTTP status, the `status`/`title` fields of an error body,
and the `data.id` field of a success body (`none` or `""` are the falsy
values of `if not playlist_id`). -/
def tidal_create_playlist (status : Nat) (err_status err_title : String)
    (data_id : Option String) : Except String String :=
  if status != 200 && status != 201 then
    .error ("Failed to create Tidal playlist: " ++ err_status ++ " " ++ err_title)
  else
    match data_id with
    | none => .error "Failed to get playlist ID from response"
    | some pid =>
      if pid == "" then .error "Failed to get playlist ID from response"
      else .ok pid

/-- Embedding of `QobuzService.create_playlist`
(qobuz_service.py lines 109-150): non-success status raises; otherwise
the id is `str(playlist_data.get('id'))`, falsy only as the empty
string. -/
def qobuz_create_playlist (status : Nat) (id_str : String) : Except String String :=
  if status != 200 && status != 201 then
    .error ("Failed to create playlist: " ++ toString status)
  else if id_str == "" then .error "Failed to get playlist ID from response"
  else .ok id_str

/-- The per-service slice of the Flask session that
`MusicService` reads and writes: `{name}_token`, `{name}_refresh_token`
and `{name}_token_expires` (base.py lines 59-69).  Timestamps are
seconds. -/
structure Session where
  token : Option String
  refresh_token : Option String
  token_expires : Option Nat
deriving DecidableEq

/-- Python truthiness of an optional string (`if refresh_token:`). -/
def truthyStr : Option String → Bool
  | none => false
  | some s => s != ""

/-- Embedding of `MusicService.save_tokens` (base.py lines 71-84): the
access token is overwritten unconditionally, the refresh token only when
the new one is truthy, and the expiry becomes `time.time() + expires_in`. -/
def save_tokens (s : Session) (now : Nat) (access_token : Option String)
    (refresh_tok : Option String) (expires_in : Nat) : Session :=
  { token := access_token,
    refresh_token := if truthyStr refresh_tok then refresh_tok else s.refresh_token,
    token_expires := some (now + expires_in) }

/-- The provider's answer to the refresh POST: a non-2xx status or
network exception, or a 200 body with its optional `access_token`,
`refresh_token` and `expires_in` JSON fields. -/
inductive RefreshResponse where
  | httpError
  | ok (access_token : Option String) (refresh_tok : Option String) (expires_in : Option Nat)

/-- Embedding of `MusicService.refresh_access_token`
(base.py lines 98-138).  A falsy stored refresh token returns `False`
with no network call; a 200 response stores
`tokens.get('access_token')` and `tokens.get('refresh_token',
refresh_token)` via `save_tokens` — which is called without an
`expires_in` argument, so its default `3600` is used and the response's
`expires_in` field is never read; any other outcome returns `False` and
leaves the session untouched. -/
def refresh_access_token (resp : RefreshResponse) (now : Nat) (s : Session) :
    Bool × Session :=
  match s.refresh_token with
  | none => (false, s)
  | some rt =>
    if rt == "" then (false, s)
    else
      match resp with
      | .httpError => (false, s)
      | .ok access refresh _ =>
        let new_access_token := access
        let new_refresh_token :=
          match refresh with
          | some r => some r
          | none => some rt
        (true, save_tokens s now new_access_token new_refresh_token 3600)

/-- Result of one `get_valid_token` call: the returned optional token,
the session afterwards, and whether `refresh_access_token` was invoked. -/
structure TokenCallResult where
  result : Option String
  session : Session
  refreshAttempted : Bool
deriving DecidableEq

/-- Embedding of `MusicService.get_valid_token` (base.py lines 153-176).
`if not token` and `if not expires` are Python falsy checks, so an empty
token reads as missing and a zero expiry as never recorded; within five
minutes of expiry (`time.time() + 300 >= expires`) a refresh is
attempted, returning the freshly stored token on success and `None` on
failure. -/
def get_valid_token (resp : RefreshResponse) (now : Nat) (s : Session) :
    TokenCallResult :=
  match s.token with
  | none => ⟨none, s, false⟩
  | some t =>
    if t == "" then ⟨none, s, false⟩
    else
      match s.token_expires with
      | none => ⟨some t, s, false⟩
      | some expires =>
        if expires == 0 then ⟨some t, s, false⟩
        else if now + 300 ≥ expires then
          match refresh_access_token resp now s with
          | (true, s2) => ⟨s2.token, s2, true⟩
          | (false, s2) => ⟨none, s2, true⟩
        else ⟨some t, s, false⟩

/-- The percentages the loop writes for the tracks of `ts`, when the
first of them has zero-based index `idx` and the playlist has `total`
tracks: falsy entries write nothing, real ones write
`progressPct idx total`. -/
def pctList (total : Nat) : Nat → List (Option Track) → List Nat
  | _, [] => []
  | idx, none :: rest => pctList total (idx + 1) rest
  | idx, some _ :: rest => progressPct idx total :: pctList total (idx + 1) rest

/-- An event's Progress Store write (if any) carries an empty
`current_track` field. -/
def blankCurrentTrack (e : Event) : Bool :=
  match e with
  | .setProgress _ _ _ _ ct => ct == ""
  | _ => true

/-- A three-track sample source playlist: all entries non-falsy. -/
def sampleTracks : List (Option Track) :=
  [some ⟨"t1", ["a1"]⟩, some ⟨"t2", ["a2"]⟩, some ⟨"t3", ["a3"]⟩]

/-- A destination on which playlist creation succeeds, tracks `t1` and
`t2` are found and append succeeds, and `t3` is not found. -/
def sampleDest : Dest where
  create_playlist := fun _ _ => .ok "dest1"
  search_track := fun n _ => if n == "t3" then none else some ("id-" ++ n)
  add_track_to_playlist := fun _ _ => true

/-- The result `transfer_playlist` computes on `sampleDest` and
`sampleTracks`: two of three tracks added. -/
def sampleResult : TransferResult where
  success := true
  playlist_name := "Mix"
  total_tracks := 3
  tracks_added := 2
  tracks_not_found := 1
  not_found_list := ["t3 - a3"]

/-- A destination on which playlist creation always fails. -/
def failDest : Dest where
  create_playlist := fun _ _ => .error "boom"
  search_track := fun _ _ => none
  add_track_to_playlist := fun _ _ => false

theorem progressTrace_append (l1 l2 : List Event) :
    progressTrace (l1 ++ l2) = progressTrace l1 ++ progressTrace l2 := by
  simp [progressTrace, List.filterMap_append]

theorem processTrack_events_progress (dest : Dest) (user pid : String) (total idx : Nat)
    (t : Option Track) (s : LoopState) :
    progressTrace (processTrack dest user pid total idx t s).events
      = progressTrace s.events
        ++ (match t with | none => [] | some _ => [progressPct idx total]) := by
  cases t with
  | none => simp [processTrack]
  | some tr =>
    simp only [processTrack]
    cases hs : dest.search_track tr.name (firstArtist tr) with
    | none =>
      cases h20 : (idx % 20 == 0) <;>
        simp [progressTrace, List.filterMap_append, h20]
    | some tid =>
      cases h20 : (idx % 20 == 0) <;>
        cases hadd : dest.add_track_to_playlist pid tid <;>
          simp [progressTrace, List.filterMap_append, h20, hadd]

theorem runLoop_events_progress (dest : Dest) (user pid : String) (total : Nat) :
    ∀ (ts : List (Option Track)) (idx : Nat) (s : LoopState),
      progressTrace (runLoop dest user pid total idx ts s).events
        = progressTrace s.events ++ pctList total idx ts := by
  intro ts
  induction ts with
  | nil => intro idx s; simp [runLoop, pctList]
  | cons t rest ih =>
    intro idx s
    rw [runLoop, ih, processTrack_events_progress]
    cases t <;> simp [pctList]

theorem processTrack_events_blank (dest : Dest) (user pid : String) (total idx : Nat)
    (t : Option Track) (s : LoopState) (h : s.events.all blankCurrentTrack = true) :
    ((processTrack dest user pid total idx t s).events).all blankCurrentTrack = true := by
  cases t with
  | none => simpa [processTrack] using h
  | some tr =>
    simp only [processTrack]
    cases hs : dest.search_track tr.name (firstArtist tr) with
    | none =>
      cases h20 : (idx % 20 == 0) <;>
        simp [List.all_append, blankCurrentTrack, h20, h]
    | some tid =>
      cases h20 : (idx % 20 == 0) <;>
        cases hadd : dest.add_track_to_playlist pid tid <;>
          simp [List.all_append, blankCurrentTrack, h20, hadd, h]

theorem runLoop_events_blank (dest : Dest) (user pid : String) (total : Nat) :
    ∀ (ts : List (Option Track)) (idx : Nat) (s : LoopState),
      s.events.all blankCurrentTrack = true →
      ((runLoop dest user pid total idx ts s).events).all blankCurrentTrack = true := by
  intro ts
  induction ts with
  | nil => intro idx s h; simpa [runLoop] using h
  | cons t rest ih =>
    intro idx s h
    rw [runLoop]
    exact ih (idx + 1) _ (processTrack_events_blank dest user pid total idx t s h)

/-- C9: every Progress Snapshot written during `transfer_playlist` — the
initial reset, every per-track update, and the final one — has an empty
`current_track` field: the per-track `set_progress` calls omit the
argument, so its default `''` is always stored. -/
theorem transfer_current_track_always_blank (dest : Dest) (sname pname : String)
    (tracks : List (Option Track)) (user : String) :
    ((transfer_playlist dest sname pname tracks user).2).all blankCurrentTrack = true := by
  simp only [transfer_playlist]
  cases hc : dest.create_playlist pname ("Transferred from " ++ pyTitle sname) with
  | error e => simp [blankCurrentTrack]
  | ok pid =>
    have hb := runLoop_events_blank dest user pid tracks.length tracks 0
      { added := 0, not_found := [], events := [] } rfl
    simp [List.all_append, blankCurrentTrack, hb]

/-- C5: for every completed transfer, `success` is true iff
`tracks_added > 0`; and on a source of three tracks of which two are
matched and appended and one is not found, the result is
`total_tracks = 3`, `tracks_added = 2`, `tracks_not_found = 1`,
`success = true`. -/
theorem transfer_success_iff_tracks_added :
    (∀ (dest : Dest) (sname pname : String) (tracks : List (Option Track)) (user : String)
        (r : TransferResult),
        (transfer_playlist dest sname pname tracks user).1 = .ok r →
        (r.success = true ↔ 0 < r.tracks_added))
    ∧ (transfer_playlist sampleDest "spotify" "Mix" sampleTracks "u").1 = .ok sampleResult
    ∧ sampleResult.total_tracks = 3 ∧ sampleResult.tracks_added = 2
    ∧ sampleResult.tracks_not_found = 1 ∧ sampleResult.success = true := by
  constructor
  · intro dest sname pname tracks user r h
    simp only [transfer_playlist] at h
    cases hc : dest.create_playlist pname ("Transferred from " ++ pyTitle sname) with
    | error e => rw [hc] at h; simp at h
    | ok pid =>
      rw [hc] at h
      simp only [Except.ok.injEq] at h
      subst h
      simp
  · exact ⟨rfl, rfl, rfl, rfl, rfl⟩

theorem transfer_success_iff_tracks_added_witness :
    sampleResult.success = true ↔ 0 < sampleResult.tracks_added :=
  transfer_success_iff_tracks_added.1 sampleDest "spotify" "Mix" sampleTracks "u"
    sampleResult rfl

/-- C10: on a zero-track source playlist (and a successfully created
destination playlist) the transfer terminates without error — the loop
body, and with it the division by the track count, is never reached — so
the trace is just the reset write and the final `100` write, no search
or append call is issued, and the result is
`success = false, total_tracks = 0, tracks_added = 0,
tracks_not_found = 0`. -/
theorem transfer_zero_tracks (dest : Dest) (sname pname user pid : String)
    (h : dest.create_playlist pname ("Transferred from " ++ pyTitle sname) = .ok pid) :
    transfer_playlist dest sname pname [] user
      = (.ok { success := false, playlist_name := pname, total_tracks := 0, tracks_added := 0,
               tracks_not_found := 0, not_found_list := [] },
         [Event.setProgress user 0 0 0 "", Event.setProgress user 100 0 0 ""]) := by
  simp only [transfer_playlist, h]
  rfl

theorem transfer_zero_tracks_witness :
    transfer_playlist sampleDest "spotify" "Mix" [] "u"
      = (.ok { success := false, playlist_name := "Mix", total_tracks := 0, tracks_added := 0,
               tracks_not_found := 0, not_found_list := [] },
         [Event.setProgress "u" 0 0 0 "", Event.setProgress "u" 100 0 0 ""]) :=
  transfer_zero_tracks sampleDest "spotify" "Mix" "u" "dest1" rfl

/-- C6: a non-success status from the provider `create_playlist` raises,
and `transfer_playlist` then aborts with that error having emitted only
the initial reset write: no search or append call is issued and the
Progress Store entry is left at `0`. -/
theorem transfer_create_fail_aborts :
    (∀ (status : Nat) (es et : String) (di : Option String), status ≠ 200 → status ≠ 201 →
        tidal_create_playlist status es et di
          = .error ("Failed to create Tidal playlist: " ++ es ++ " " ++ et))
    ∧ (∀ (status : Nat) (idstr : String), status ≠ 200 → status ≠ 201 →
        qobuz_create_playlist status idstr
          = .error ("Failed to create playlist: " ++ toString status))
    ∧ (∀ (dest : Dest) (sname pname : String) (tracks : List (Option Track)) (user e : String),
        dest.create_playlist pname ("Transferred from " ++ pyTitle sname) = .error e →
        transfer_playlist dest sname pname tracks user
            = (.error e, [Event.setProgress user 0 0 0 ""])
          ∧ List.filter isSearchOrAppend (transfer_playlist dest sname pname tracks user).2 = []
          ∧ progressTrace (transfer_playlist dest sname pname tracks user).2 = [0]) := by
  refine ⟨?_, ?_, ?_⟩
  · intro status es et di h1 h2
    have hb : (status != 200 && status != 201) = true := by
      simp [bne_iff_ne, h1, h2]
    simp [tidal_create_playlist, hb]
  · intro status idstr h1 h2
    have hb : (status != 200 && status != 201) = true := by
      simp [bne_iff_ne, h1, h2]
    simp [qobuz_create_playlist, hb]
  · intro dest sname pname tracks user e h
    refine ⟨?_, ?_, ?_⟩ <;> simp [transfer_playlist, h, isSearchOrAppend, progressTrace]

theorem transfer_create_fail_aborts_witness :
    tidal_create_playlist 404 "404" "Not Found" none
        = .error "Failed to create Tidal playlist: 404 Not Found"
    ∧ qobuz_create_playlist 500 "7" = .error "Failed to create playlist: 500"
    ∧ transfer_playlist failDest "spotify" "Mix" sampleTracks "u"
        = (.error "boom", [Event.setProgress "u" 0 0 0 ""]) :=
  ⟨transfer_create_fail_aborts.1 404 "404" "Not Found" none (by decide) (by decide),
   transfer_create_fail_aborts.2.1 500 "7" (by decide) (by decide),
   (transfer_create_fail_aborts.2.2 failDest "spotify" "Mix" sampleTracks "u" "boom" rfl).1⟩

theorem log2Fuel_spec : ∀ (f n : Nat), 1 ≤ n → n ≤ 2 ^ f →
    2 ^ (log2Fuel f n) ≤ n ∧ n < 2 ^ (log2Fuel f n + 1) := by
  intro f
  induction f with
  | zero => intro n h1 h2; simp [log2Fuel]; omega
  | succ f ih =>
    intro n h1 h2
    by_cases hn : n ≤ 1
    · simp [log2Fuel, hn]; omega
    · rw [log2Fuel, if_neg hn]
      have hrec := ih (n / 2) (by omega) (by
        have : 2 ^ (f + 1) = 2 * 2 ^ f := by ring
        omega)
      constructor
      · calc 2 ^ (log2Fuel f (n / 2) + 1) = 2 * 2 ^ (log2Fuel f (n / 2)) := by ring
        _ ≤ 2 * (n / 2) := by omega
        _ ≤ n := by omega
      · calc n < 2 * (n / 2) + 2 := by omega
        _ ≤ 2 * 2 ^ (log2Fuel f (n / 2) + 1) := by omega
        _ = 2 ^ (log2Fuel f (n / 2) + 1 + 1) := by ring

theorem natLog2_spec (n : Nat) (h : 1 ≤ n) :
    2 ^ (natLog2 n) ≤ n ∧ n < 2 ^ (natLog2 n + 1) :=
  log2Fuel_spec n n h (Nat.lt_two_pow n).le

theorem le_rne (x : ℚ) : ⌊x⌋ ≤ rne x := by
  unfold rne
  split_ifs <;> omega

theorem rne_le (x : ℚ) : rne x ≤ ⌊x⌋ + 1 := by
  unfold rne
  split_ifs <;> omega

theorem rne_mono {x y : ℚ} (h : x ≤ y) : rne x ≤ rne y := by
  have hf : ⌊x⌋ ≤ ⌊y⌋ := Int.floor_le_floor h
  rcases eq_or_lt_of_le hf with hf | hf
  · have hr : x - ⌊x⌋ ≤ y - ⌊y⌋ := by
      rw [← hf]
      exact sub_le_sub_right h _
    unfold rne
    rw [← hf]
    split_ifs <;> first | omega | (exfalso; linarith)
  · calc rne x ≤ ⌊x⌋ + 1 := rne_le x
    _ ≤ ⌊y⌋ := by omega
    _ ≤ rne y := le_rne y

theorem rne_intCast (k : ℤ) : rne (k : ℚ) = k := by
  unfold rne
  simp

theorem rne_natCast_div (N D : Nat) (hD : 0 < D) :
    rne ((N : ℚ) / (D : ℚ)) = (rneNat N D : ℤ) := by
  have hD' : (0 : ℚ) < D := by exact_mod_cast hD
  have hdm : ((D : ℚ)) * ((N / D : ℕ) : ℚ) + ((N % D : ℕ) : ℚ) = N := by
    exact_mod_cast Nat.div_add_mod N D
  have hmod : ((N % D : ℕ) : ℚ) < D := by exact_mod_cast Nat.mod_lt N hD
  have hfloor : ⌊(N : ℚ) / (D : ℚ)⌋ = ((N / D : ℕ) : ℤ) := by
    rw [Rat.floor_natCast_div_natCast]
    exact (Int.ofNat_div _ _).symm
  have hfrac : (N : ℚ) / D - ((N / D : ℕ) : ℚ) = ((N % D : ℕ) : ℚ) / D := by
    field_simp
    linarith [hdm]
  have hcast : (2:ℚ) * ((N % D : ℕ) : ℚ) = ((2 * (N % D) : ℕ) : ℚ) := by
    push_cast
    ring
  have c1 : ((N : ℚ) / D - ⌊(N : ℚ) / D⌋ < 1/2) ↔ 2 * (N % D) < D := by
    rw [hfloor, Int.cast_natCast, hfrac, div_lt_div_iff hD' (by norm_num : (0:ℚ) < 2),
      one_mul, mul_comm, hcast, Nat.cast_lt]
  have c2 : ((1:ℚ)/2 < (N : ℚ) / D - ⌊(N : ℚ) / D⌋) ↔ D < 2 * (N % D) := by
    rw [hfloor, Int.cast_natCast, hfrac, div_lt_div_iff (by norm_num : (0:ℚ) < 2) hD',
      one_mul, mul_comm ((N % D : ℕ) : ℚ) 2, hcast, Nat.cast_lt]
  have c3 : (⌊(N : ℚ) / D⌋ % 2 = 0) ↔ (N / D) % 2 = 0 := by
    rw [hfloor]
    omega
  by_cases hA : 2 * (N % D) < D
  · rw [rne, if_pos (c1.mpr hA), hfloor, rneNat, if_pos hA]
  · by_cases hB : D < 2 * (N % D)
    · rw [rne, if_neg (by rw [c1]; omega), if_pos (c2.mpr hB), hfloor,
        rneNat, if_neg hA, if_pos hB]
      push_cast
      ring
    · by_cases hC : (N / D) % 2 = 0
      · rw [rne, if_neg (by rw [c1]; omega), if_neg (by rw [c2]; omega),
          if_pos (c3.mpr hC), hfloor, rneNat, if_neg hA, if_neg hB, if_pos hC]
      · rw [rne, if_neg (by rw [c1]; omega), if_neg (by rw [c2]; omega),
          if_neg (by rw [c3]; omega), hfloor, rneNat, if_neg hA, if_neg hB, if_neg hC]
        push_cast
        ring

theorem q2pow (k : ℕ) : (2:ℚ) ^ (k : ℤ) = ((2 ^ k : ℕ) : ℚ) := by
  rw [zpow_natCast]
  push_cast
  ring

theorem q2pow_sub (k l : ℕ) :
    (2:ℚ) ^ ((k : ℤ) - (l : ℤ)) = ((2 ^ k : ℕ) : ℚ) / ((2 ^ l : ℕ) : ℚ) := by
  rw [zpow_sub₀ (by norm_num : (2:ℚ) ≠ 0), q2pow, q2pow]

theorem rat_eq_num_div_den (x : ℚ) (hx : 0 < x) :
    x = ((x.num.toNat : ℕ) : ℚ) / ((x.den : ℕ) : ℚ) := by
  have h1 : ((x.num.toNat : ℤ) : ℚ) = ((x.num : ℤ) : ℚ) := by
    rw [Int.toNat_of_nonneg (Rat.num_pos.mpr hx).le]
  rw [show ((x.num.toNat : ℕ) : ℚ) = ((x.num.toNat : ℤ) : ℚ) by push_cast; ring, h1]
  exact (Rat.num_div_den x).symm

theorem qlog2_bracket (x : ℚ) (hx : 0 < x) :
    (2:ℚ) ^ ((natLog2 x.num.toNat : ℤ) - (natLog2 x.den : ℤ) - 1) < x
    ∧ x < (2:ℚ) ^ ((natLog2 x.num.toNat : ℤ) - (natLog2 x.den : ℤ) + 1) := by
  have hn : 1 ≤ x.num.toNat := by
    have := Rat.num_pos.mpr hx
    omega
  have hd : 1 ≤ x.den := x.pos
  obtain ⟨ha1, ha2⟩ := natLog2_spec _ hn
  obtain ⟨hb1, hb2⟩ := natLog2_spec _ hd
  set A := natLog2 x.num.toNat with hA
  set B := natLog2 x.den with hB
  have hxval := rat_eq_num_div_den x hx
  have hdpos : (0:ℚ) < (x.den : ℚ) := by exact_mod_cast hd
  have hnpos : (0:ℚ) < ((x.num.toNat : ℕ) : ℚ) := by exact_mod_cast hn
  constructor
  · have heq : ((A : ℤ) - (B : ℤ) - 1) = ((A : ℤ) - ((B + 1 : ℕ) : ℤ)) := by
      push_cast
      ring
    rw [heq, q2pow_sub, hxval, div_lt_div_iff (by positivity) hdpos]
    have k1 : ((2 ^ A : ℕ) : ℚ) ≤ ((x.num.toNat : ℕ) : ℚ) := by exact_mod_cast ha1
    have k2 : ((x.den : ℕ) : ℚ) < ((2 ^ (B + 1) : ℕ) : ℚ) := by exact_mod_cast hb2
    nlinarith
  · have heq : ((A : ℤ) - (B : ℤ) + 1) = (((A + 1 : ℕ) : ℤ) - ((B : ℕ) : ℤ)) := by
      push_cast
      ring
    rw [heq, q2pow_sub, hxval, div_lt_div_iff hdpos (by positivity)]
    have k1 : ((x.num.toNat : ℕ) : ℚ) < ((2 ^ (A + 1) : ℕ) : ℚ) := by exact_mod_cast ha2
    have k2 : ((2 ^ B : ℕ) : ℚ) ≤ ((x.den : ℕ) : ℚ) := by exact_mod_cast hb1
    nlinarith

theorem qlog2_spec (x : ℚ) (hx : 0 < x) :
    (2:ℚ) ^ (qlog2 x) ≤ x ∧ x < (2:ℚ) ^ (qlog2 x + 1) := by
  obtain ⟨hlow, hhigh⟩ := qlog2_bracket x hx
  rw [qlog2]
  split_ifs with hcond
  · refine ⟨hlow.le, ?_⟩
    have : (natLog2 x.num.toNat : ℤ) - (natLog2 x.den : ℤ) - 1 + 1
        = (natLog2 x.num.toNat : ℤ) - (natLog2 x.den : ℤ) := by ring
    rw [this]
    exact hcond
  · exact ⟨not_lt.mp hcond, by
      have : (natLog2 x.num.toNat : ℤ) - (natLog2 x.den : ℤ) + 1
          = (natLog2 x.num.toNat : ℤ) - (natLog2 x.den : ℤ) + 1 := rfl
      exact hhigh⟩

theorem pow2_bracket_unique {x : ℚ} {e f : ℤ} (he1 : (2:ℚ) ^ e ≤ x)
    (he2 : x < (2:ℚ) ^ (e + 1)) (hf1 : (2:ℚ) ^ f ≤ x) (hf2 : x < (2:ℚ) ^ (f + 1)) :
    e = f := by
  by_contra h
  rcases lt_or_gt_of_ne h with h | h
  · have : (2:ℚ) ^ (e + 1) ≤ (2:ℚ) ^ f := by
      apply zpow_le_zpow_right₀ (by norm_num : (1:ℚ) ≤ 2)
      omega
    linarith
  · have : (2:ℚ) ^ (f + 1) ≤ (2:ℚ) ^ e := by
      apply zpow_le_zpow_right₀ (by norm_num : (1:ℚ) ≤ 2)
      omega
    linarith

theorem roundB64_scaled_lb {x : ℚ} (hx : 0 < x) :
    (2:ℚ) ^ (52:ℤ) ≤ x * 2 ^ ((52:ℤ) - qlog2 x) :=
  calc (2:ℚ) ^ (52:ℤ) = 2 ^ (qlog2 x) * 2 ^ ((52:ℤ) - qlog2 x) := by
        rw [← zpow_add₀ (by norm_num : (2:ℚ) ≠ 0)]
        ring_nf
  _ ≤ x * 2 ^ ((52:ℤ) - qlog2 x) :=
      mul_le_mul_of_nonneg_right (qlog2_spec x hx).1 (zpow_nonneg (by norm_num) _)

theorem roundB64_scaled_ub {x : ℚ} (hx : 0 < x) :
    x * 2 ^ ((52:ℤ) - qlog2 x) < (2:ℚ) ^ (53:ℤ) :=
  calc x * 2 ^ ((52:ℤ) - qlog2 x) < 2 ^ (qlog2 x + 1) * 2 ^ ((52:ℤ) - qlog2 x) :=
        mul_lt_mul_of_pos_right (qlog2_spec x hx).2 (zpow_pos (by norm_num) _)
  _ = (2:ℚ) ^ (53:ℤ) := by
        rw [← zpow_add₀ (by norm_num : (2:ℚ) ≠ 0)]
        ring_nf

theorem roundB64_mant_lb {x : ℚ} (hx : 0 < x) :
    (2 ^ 52 : ℤ) ≤ rne (x * 2 ^ ((52:ℤ) - qlog2 x)) := by
  refine le_trans ?_ (le_rne _)
  rw [Int.le_floor]
  calc ((2 ^ 52 : ℤ) : ℚ) = (2:ℚ) ^ (52:ℤ) := by
        push_cast
        norm_num
  _ ≤ _ := roundB64_scaled_lb hx

theorem roundB64_mant_ub {x : ℚ} (hx : 0 < x) :
    rne (x * 2 ^ ((52:ℤ) - qlog2 x)) ≤ 2 ^ 53 := by
  refine le_trans (rne_le _) ?_
  have : ⌊x * 2 ^ ((52:ℤ) - qlog2 x)⌋ < 2 ^ 53 := by
    rw [Int.floor_lt]
    calc x * 2 ^ ((52:ℤ) - qlog2 x) < (2:ℚ) ^ (53:ℤ) := roundB64_scaled_ub hx
    _ = ((2 ^ 53 : ℤ) : ℚ) := by
        push_cast
        norm_num
  omega

theorem roundB64_lb {x : ℚ} (hx : 0 < x) : (2:ℚ) ^ (qlog2 x) ≤ roundB64 x := by
  rw [roundB64, if_pos hx, roundB64Pos]
  calc (2:ℚ) ^ (qlog2 x) = 2 ^ (52:ℤ) * 2 ^ (qlog2 x - 52) := by
        rw [← zpow_add₀ (by norm_num : (2:ℚ) ≠ 0)]
        ring_nf
  _ ≤ (rne (x * 2 ^ ((52:ℤ) - qlog2 x)) : ℚ) * 2 ^ (qlog2 x - 52) := by
      apply mul_le_mul_of_nonneg_right _ (zpow_nonneg (by norm_num) _)
      calc (2:ℚ) ^ (52:ℤ) = ((2 ^ 52 : ℤ) : ℚ) := by
            push_cast
            norm_num
      _ ≤ _ := Int.cast_le.mpr (roundB64_mant_lb hx)

theorem roundB64_ub {x : ℚ} (hx : 0 < x) : roundB64 x ≤ (2:ℚ) ^ (qlog2 x + 1) := by
  rw [roundB64, if_pos hx, roundB64Pos]
  calc (rne (x * 2 ^ ((52:ℤ) - qlog2 x)) : ℚ) * 2 ^ (qlog2 x - 52)
      ≤ (2:ℚ) ^ (53:ℤ) * 2 ^ (qlog2 x - 52) := by
        apply mul_le_mul_of_nonneg_right _ (zpow_nonneg (by norm_num) _)
        calc ((rne (x * 2 ^ ((52:ℤ) - qlog2 x)) : ℤ) : ℚ)
            ≤ ((2 ^ 53 : ℤ) : ℚ) := Int.cast_le.mpr (roundB64_mant_ub hx)
        _ = (2:ℚ) ^ (53:ℤ) := by
            push_cast
            norm_num
  _ = (2:ℚ) ^ (qlog2 x + 1) := by
        rw [← zpow_add₀ (by norm_num : (2:ℚ) ≠ 0)]
        ring_nf

theorem roundB64_pos {x : ℚ} (hx : 0 < x) : 0 < roundB64 x :=
  lt_of_lt_of_le (zpow_pos (by norm_num) _) (roundB64_lb hx)

theorem roundB64_mono {x y : ℚ} (hx : 0 < x) (hxy : x ≤ y) :
    roundB64 x ≤ roundB64 y := by
  have hy : 0 < y := lt_of_lt_of_le hx hxy
  have hexy : qlog2 x ≤ qlog2 y := by
    by_contra h
    push_neg at h
    have h1 := (qlog2_spec y hy).2
    have h2 := (qlog2_spec x hx).1
    have h3 : (2:ℚ) ^ (qlog2 y + 1) ≤ (2:ℚ) ^ (qlog2 x) := by
      apply zpow_le_zpow_right₀ (by norm_num : (1:ℚ) ≤ 2)
      omega
    linarith
  rcases eq_or_lt_of_le hexy with heq | hlt
  · rw [roundB64, if_pos hx, roundB64, if_pos hy, roundB64Pos, roundB64Pos, ← heq]
    apply mul_le_mul_of_nonneg_right _ (zpow_nonneg (by norm_num) _)
    exact_mod_cast rne_mono (mul_le_mul_of_nonneg_right hxy (zpow_nonneg (by norm_num) _))
  · calc roundB64 x ≤ (2:ℚ) ^ (qlog2 x + 1) := roundB64_ub hx
    _ ≤ (2:ℚ) ^ (qlog2 y) := by
        apply zpow_le_zpow_right₀ (by norm_num : (1:ℚ) ≤ 2)
        omega
    _ ≤ roundB64 y := roundB64_lb hy

theorem floatDivExp_bracket (n d : ℕ) (hn : 0 < n) (hd : 0 < d) :
    (2:ℚ) ^ (floatDivExp n d) ≤ (n:ℚ)/(d:ℚ)
    ∧ (n:ℚ)/(d:ℚ) < (2:ℚ) ^ (floatDivExp n d + 1) := by
  obtain ⟨ha1, ha2⟩ := natLog2_spec n hn
  obtain ⟨hb1, hb2⟩ := natLog2_spec d hd
  set A := natLog2 n with hA
  set B := natLog2 d with hB
  have hdpos : (0:ℚ) < (d:ℚ) := by exact_mod_cast hd
  have hnpos : (0:ℚ) < (n:ℚ) := by exact_mod_cast hn
  have hcond : (n * 2 ^ B < d * 2 ^ A) ↔ ((n:ℚ)/(d:ℚ) < (2:ℚ) ^ ((A:ℤ) - B)) := by
    rw [q2pow_sub, div_lt_div_iff hdpos (by positivity),
      show ((2 ^ A : ℕ) : ℚ) * (d:ℚ) = ((d * 2 ^ A : ℕ) : ℚ) by push_cast; ring,
      show ((n:ℚ)) * ((2 ^ B : ℕ) : ℚ) = ((n * 2 ^ B : ℕ) : ℚ) by push_cast; ring,
      Nat.cast_lt]
  rw [floatDivExp]
  split_ifs with hc
  · constructor
    · have heq : ((A : ℤ) - (B : ℤ) - 1) = ((A : ℤ) - ((B + 1 : ℕ) : ℤ)) := by
        push_cast
        ring
      rw [heq, q2pow_sub, div_le_div_iff (by positivity) hdpos]
      have k1 : ((2 ^ A : ℕ) : ℚ) ≤ ((n : ℕ) : ℚ) := by exact_mod_cast ha1
      have k2 : ((d : ℕ) : ℚ) < ((2 ^ (B + 1) : ℕ) : ℚ) := by exact_mod_cast hb2
      nlinarith
    · have heq : ((A : ℤ) - (B : ℤ) - 1 + 1) = ((A : ℤ) - B) := by ring
      rw [heq]
      exact hcond.mp hc
  · constructor
    · exact not_lt.mp (fun hlt => hc (hcond.mpr hlt))
    · have heq : ((A : ℤ) - (B : ℤ) + 1) = (((A + 1 : ℕ) : ℤ) - ((B : ℕ) : ℤ)) := by
        push_cast
        ring
      rw [heq, q2pow_sub, div_lt_div_iff hdpos (by positivity)]
      have k1 : ((n : ℕ) : ℚ) < ((2 ^ (A + 1) : ℕ) : ℚ) := by exact_mod_cast ha2
      have k2 : ((2 ^ B : ℕ) : ℚ) ≤ ((d : ℕ) : ℚ) := by exact_mod_cast hb1
      nlinarith

theorem floatDivExp_eq (n d : ℕ) (hn : 0 < n) (hd : 0 < d) :
    floatDivExp n d = qlog2 ((n:ℚ)/(d:ℚ)) := by
  have hx : (0:ℚ) < (n:ℚ)/(d:ℚ) := by positivity
  obtain ⟨h1, h2⟩ := floatDivExp_bracket n d hn hd
  obtain ⟨h3, h4⟩ := qlog2_spec _ hx
  exact pow2_bracket_unique h1 h2 h3 h4

theorem rne_natCast (k : ℕ) : rne ((k : ℕ) : ℚ) = (k : ℤ) := by
  rw [show ((k : ℕ) : ℚ) = (((k : ℕ) : ℤ) : ℚ) by push_cast; ring, rne_intCast]

theorem floatDiv_eq (n d : ℕ) (hn : 0 < n) (hd : 0 < d) :
    ((floatDiv n d).1 : ℚ) * (2:ℚ) ^ ((floatDiv n d).2) = roundB64 ((n:ℚ)/(d:ℚ)) := by
  have hx : (0:ℚ) < (n:ℚ)/(d:ℚ) := by positivity
  rw [roundB64, if_pos hx, roundB64Pos, ← floatDivExp_eq n d hn hd]
  show ((floatDivMant n d : ℕ) : ℚ) * _ = _
  have hmant : ((floatDivMant n d : ℕ) : ℤ)
      = rne ((n:ℚ)/(d:ℚ) * (2:ℚ) ^ ((52:ℤ) - floatDivExp n d)) := by
    rw [floatDivMant]
    split_ifs with hle
    · have h52 : ((52:ℤ) - floatDivExp n d)
          = (((52 - floatDivExp n d).toNat : ℕ) : ℤ) :=
        (Int.toNat_of_nonneg (by omega)).symm
      have hscl : (n:ℚ)/(d:ℚ) * (2:ℚ) ^ ((52:ℤ) - floatDivExp n d)
          = ((n * 2 ^ (52 - floatDivExp n d).toNat : ℕ) : ℚ) / (d:ℚ) := by
        rw [h52, q2pow]
        push_cast
        rw [Int.toNat_natCast]
        ring
      rw [hscl, rne_natCast_div _ _ hd]
    · have h52 : (floatDivExp n d - 52) = (((floatDivExp n d - 52).toNat : ℕ) : ℤ) :=
        (Int.toNat_of_nonneg (by omega)).symm
      have hscl : (n:ℚ)/(d:ℚ) * (2:ℚ) ^ ((52:ℤ) - floatDivExp n d)
          = (n : ℚ) / ((d * 2 ^ (floatDivExp n d - 52).toNat : ℕ) : ℚ) := by
        rw [show ((52:ℤ) - floatDivExp n d) = -(floatDivExp n d - 52) by ring,
          zpow_neg, h52, q2pow]
        push_cast
        rw [Int.toNat_natCast]
        field_simp
      rw [hscl, rne_natCast_div _ _ (Nat.mul_pos hd (Nat.pos_pow_of_pos _ (by omega)))]
  rw [show ((floatDivMant n d : ℕ) : ℚ)
      = ((((floatDivMant n d : ℕ) : ℤ)) : ℚ) by push_cast; ring, hmant]
  rfl

theorem floatMul100Trunc_eq (m : ℕ) (E : ℤ) (hm : 0 < m) :
    (floatMul100Trunc m E : ℤ) = ⌊roundB64 ((m : ℚ) * (2:ℚ) ^ E * 100)⌋ := by
  have hm1 : 0 < m * 100 := by omega
  obtain ⟨hL1, hL2⟩ := natLog2_spec (m * 100) hm1
  have hv : (0:ℚ) < ((m * 100 : ℕ) : ℚ) * (2:ℚ) ^ E := by positivity
  have v100 : (m:ℚ) * (2:ℚ) ^ E * 100 = ((m * 100 : ℕ) : ℚ) * (2:ℚ) ^ E := by
    push_cast
    ring
  have hq : qlog2 (((m * 100 : ℕ) : ℚ) * (2:ℚ) ^ E) = (fm100L m : ℤ) + E := by
    refine pow2_bracket_unique (qlog2_spec _ hv).1 (qlog2_spec _ hv).2 ?_ ?_
    · rw [zpow_add₀ (by norm_num : (2:ℚ) ≠ 0), q2pow]
      apply mul_le_mul_of_nonneg_right _ (zpow_nonneg (by norm_num) _)
      exact_mod_cast hL1
    · rw [show ((fm100L m : ℤ) + E + 1) = (((fm100L m + 1 : ℕ) : ℤ) + E) by push_cast; ring,
        zpow_add₀ (by norm_num : (2:ℚ) ≠ 0), q2pow]
      apply mul_lt_mul_of_pos_right _ (zpow_pos (by norm_num) _)
      exact_mod_cast hL2
  rw [v100, roundB64, if_pos hv, roundB64Pos, hq]
  have hscl : ((m * 100 : ℕ) : ℚ) * (2:ℚ) ^ E * (2:ℚ) ^ ((52:ℤ) - ((fm100L m : ℤ) + E))
      = ((m * 100 : ℕ) : ℚ) * (2:ℚ) ^ ((52:ℤ) - fm100L m) := by
    rw [mul_assoc, ← zpow_add₀ (by norm_num : (2:ℚ) ≠ 0)]
    ring_nf
  rw [hscl]
  have hmant : rne (((m * 100 : ℕ) : ℚ) * (2:ℚ) ^ ((52:ℤ) - fm100L m)) = (fm100M m : ℤ) := by
    rw [fm100M]
    split_ifs with hle
    · have h52 : ((52:ℤ) - fm100L m) = (((52 - fm100L m : ℕ) : ℕ) : ℤ) := by omega
      rw [h52, q2pow, show ((m * 100 : ℕ) : ℚ) * ((2 ^ (52 - fm100L m) : ℕ) : ℚ)
          = ((m * 100 * 2 ^ (52 - fm100L m) : ℕ) : ℚ) by push_cast; ring, rne_natCast]
    · have h52 : ((52:ℤ) - fm100L m) = -(((fm100L m - 52 : ℕ) : ℕ) : ℤ) := by omega
      rw [h52, zpow_neg, q2pow]
      rw [show ((m * 100 : ℕ) : ℚ) * (((2 ^ (fm100L m - 52) : ℕ) : ℚ))⁻¹
          = ((m * 100 : ℕ) : ℚ) / ((2 ^ (fm100L m - 52) : ℕ) : ℚ) by
        rw [div_eq_mul_inv]]
      rw [rne_natCast_div _ _ (Nat.pos_pow_of_pos _ (by omega))]
  rw [hmant]
  set F : ℤ := (fm100L m : ℤ) + E - 52 with hF
  by_cases hF0 : 0 ≤ F
  · rw [floatMul100Trunc, ← hF, if_pos hF0]
    have hFpow : (2:ℚ) ^ ((fm100L m : ℤ) + E - 52) = ((2 ^ F.toNat : ℕ) : ℚ) := by
      rw [← hF, show F = ((F.toNat : ℕ) : ℤ) from (Int.toNat_of_nonneg hF0).symm, q2pow]
      rw [Int.toNat_natCast]
    rw [hFpow, show ((fm100M m : ℤ) : ℚ) * ((2 ^ F.toNat : ℕ) : ℚ)
        = ((fm100M m * 2 ^ F.toNat : ℕ) : ℚ) by push_cast; ring]
    rw [Int.floor_natCast]
  · rw [floatMul100Trunc, ← hF, if_neg hF0]
    have hFpow : (2:ℚ) ^ F = (((2 ^ (-F).toNat : ℕ) : ℚ))⁻¹ := by
      have hk : F = -(((-F).toNat : ℕ) : ℤ) := by omega
      rw [show (2:ℚ) ^ F = (2:ℚ) ^ (-(((-F).toNat : ℕ) : ℤ)) from
        congrArg (fun z : ℤ => (2:ℚ) ^ z) hk, zpow_neg, q2pow]
    rw [hFpow, show ((fm100M m : ℤ) : ℚ) * (((2 ^ (-F).toNat : ℕ) : ℚ))⁻¹
        = ((fm100M m : ℕ) : ℚ) / ((2 ^ (-F).toNat : ℕ) : ℚ) by push_cast; ring]
    rw [Rat.floor_natCast_div_natCast]
    exact (Int.ofNat_div _ _).symm

theorem progressPct_eq (idx total : ℕ) (h : 0 < total) :
    progressPct idx total
      = (⌊roundB64 (roundB64 (((idx + 1 : ℕ) : ℚ) / (total : ℚ)) * 100)⌋).toNat := by
  rw [progressPct, if_neg (by omega)]
  have hfd := floatDiv_eq (idx + 1) total (by omega) h
  have hx : (0:ℚ) < ((idx + 1 : ℕ) : ℚ) / (total : ℚ) := by positivity
  have hm : 0 < (floatDiv (idx + 1) total).1 := by
    have hv := roundB64_pos hx
    rw [← hfd] at hv
    by_contra hc
    push_neg at hc
    interval_cases hmv : (floatDiv (idx + 1) total).1
    · simp [hmv] at hv
  have heq := floatMul100Trunc_eq (floatDiv (idx + 1) total).1 (floatDiv (idx + 1) total).2 hm
  rw [show ((floatDiv (idx + 1) total).1 : ℚ) * (2:ℚ) ^ (floatDiv (idx + 1) total).2 * 100
      = roundB64 (((idx + 1 : ℕ) : ℚ) / (total : ℚ)) * 100 by rw [hfd]] at heq
  rw [← heq, Int.toNat_natCast]

theorem qlog2_one : qlog2 1 = 0 := by
  rw [qlog2, Rat.num_one, Rat.den_one]
  norm_num [show ((1:ℤ)).toNat = 1 from rfl, show natLog2 1 = 0 from rfl]

theorem roundB64_one : roundB64 1 = 1 := by
  rw [roundB64, if_pos one_pos, roundB64Pos, qlog2_one]
  rw [show ((52:ℤ) - 0) = (((52:ℕ) : ℕ):ℤ) by norm_num, q2pow, one_mul, rne_natCast]
  rw [show ((0:ℤ) - 52) = -(((52:ℕ) : ℕ):ℤ) by norm_num, zpow_neg, q2pow]
  rw [show (((2 ^ 52 : ℕ) : ℤ) : ℚ) = ((2 ^ 52 : ℕ) : ℚ) by push_cast; ring]
  rw [mul_inv_cancel₀ (by positivity)]

theorem qlog2_hundred : qlog2 100 = 6 := by
  rw [qlog2, Rat.num_ofNat, Rat.den_ofNat]
  norm_num [show ((100:ℤ)).toNat = 100 from rfl, show natLog2 100 = 6 from rfl,
    show natLog2 1 = 0 from rfl, show ((6:ℤ) - 0) = (((6:ℕ) : ℕ) : ℤ) from by norm_num,
    q2pow]

theorem roundB64_hundred : roundB64 100 = 100 := by
  rw [roundB64, if_pos (by norm_num : (0:ℚ) < 100), roundB64Pos, qlog2_hundred]
  rw [show ((52:ℤ) - 6) = (((46:ℕ) : ℕ):ℤ) by norm_num, q2pow]
  rw [show (100:ℚ) * ((2 ^ 46 : ℕ) : ℚ) = ((100 * 2 ^ 46 : ℕ) : ℚ) by push_cast; ring,
    rne_natCast]
  rw [show ((6:ℤ) - 52) = -(((46:ℕ) : ℕ):ℤ) by norm_num, zpow_neg, q2pow]
  rw [show (((100 * 2 ^ 46 : ℕ) : ℤ) : ℚ) = ((100 * 2 ^ 46 : ℕ) : ℚ) by push_cast; ring]
  rw [show ((100 * 2 ^ 46 : ℕ) : ℚ) = 100 * ((2 ^ 46 : ℕ) : ℚ) by push_cast; ring,
    mul_assoc, mul_inv_cancel₀ (by positivity), mul_one]

theorem progressPct_mono (total : ℕ) {i j : ℕ} (h : i ≤ j) :
    progressPct i total ≤ progressPct j total := by
  by_cases htot : total = 0
  · subst htot
    simp [progressPct]
  · rw [progressPct_eq i total (by omega), progressPct_eq j total (by omega)]
    have htq : (0:ℚ) < (total : ℚ) := by
      exact_mod_cast Nat.pos_of_ne_zero htot
    have hqi : (0:ℚ) < ((i + 1 : ℕ) : ℚ) / (total : ℚ) := by positivity
    have hle : ((i + 1 : ℕ) : ℚ) / (total : ℚ) ≤ ((j + 1 : ℕ) : ℚ) / (total : ℚ) := by
      gcongr
    have h1 := roundB64_mono hqi hle
    have h2 := roundB64_pos hqi
    have h3 : roundB64 (((i + 1 : ℕ) : ℚ) / (total : ℚ)) * 100
        ≤ roundB64 (((j + 1 : ℕ) : ℚ) / (total : ℚ)) * 100 := by nlinarith
    have h4 : (0:ℚ) < roundB64 (((i + 1 : ℕ) : ℚ) / (total : ℚ)) * 100 := by nlinarith
    exact Int.toNat_le_toNat (Int.floor_le_floor (roundB64_mono h4 h3))

theorem progressPct_le_100 {i total : ℕ} (h : i < total) : progressPct i total ≤ 100 := by
  rw [progressPct_eq i total (by omega)]
  have htq : (0:ℚ) < (total : ℚ) := by
    have : 0 < total := by omega
    exact_mod_cast this
  have hqi : (0:ℚ) < ((i + 1 : ℕ) : ℚ) / (total : ℚ) := by positivity
  have hle1 : ((i + 1 : ℕ) : ℚ) / (total : ℚ) ≤ 1 := by
    rw [div_le_one htq]
    exact_mod_cast h
  have h1 : roundB64 (((i + 1 : ℕ) : ℚ) / (total : ℚ)) ≤ 1 := by
    have := roundB64_mono hqi hle1
    rwa [roundB64_one] at this
  have h2 := roundB64_pos hqi
  have h3 : roundB64 (((i + 1 : ℕ) : ℚ) / (total : ℚ)) * 100 ≤ 100 := by nlinarith
  have h4 : (0:ℚ) < roundB64 (((i + 1 : ℕ) : ℚ) / (total : ℚ)) * 100 := by nlinarith
  have h5 : roundB64 (roundB64 (((i + 1 : ℕ) : ℚ) / (total : ℚ)) * 100) ≤ 100 := by
    have := roundB64_mono h4 h3
    rwa [roundB64_hundred] at this
  have h6 : ⌊roundB64 (roundB64 (((i + 1 : ℕ) : ℚ) / (total : ℚ)) * 100)⌋ ≤ 100 := by
    have := Int.floor_le_floor h5
    simpa using this
  omega

theorem pctList_lower (total : Nat) :
    ∀ (ts : List (Option Track)) (idx x : Nat),
      x ∈ pctList total idx ts → progressPct idx total ≤ x := by
  intro ts
  induction ts with
  | nil => intro idx x hx; simp [pctList] at hx
  | cons t rest ih =>
    intro idx x hx
    cases t with
    | none =>
      simp only [pctList] at hx
      exact le_trans (progressPct_mono total (by omega)) (ih (idx + 1) x hx)
    | some tr =>
      simp only [pctList] at hx
      rcases List.mem_cons.mp hx with rfl | hx
      · exact le_refl _
      · exact le_trans (progressPct_mono total (by omega)) (ih (idx + 1) x hx)

theorem pctList_le_100 (total : Nat) :
    ∀ (ts : List (Option Track)) (idx x : Nat), idx + ts.length ≤ total →
      x ∈ pctList total idx ts → x ≤ 100 := by
  intro ts
  induction ts with
  | nil => intro idx x _ hx; simp [pctList] at hx
  | cons t rest ih =>
    intro idx x hlen hx
    simp only [List.length_cons] at hlen
    cases t with
    | none =>
      simp only [pctList] at hx
      exact ih (idx + 1) x (by omega) hx
    | some tr =>
      simp only [pctList] at hx
      rcases List.mem_cons.mp hx with rfl | hx
      · exact progressPct_le_100 (by omega)
      · exact ih (idx + 1) x (by omega) hx

theorem pctList_chain (total : Nat) :
    ∀ (ts : List (Option Track)) (idx : Nat),
      List.Chain' (· ≤ ·) (pctList total idx ts) := by
  intro ts
  induction ts with
  | nil => intro idx; simp [pctList]
  | cons t rest ih =>
    intro idx
    cases t with
    | none => simpa [pctList] using ih (idx + 1)
    | some tr =>
      simp only [pctList]
      refine List.chain'_cons'.mpr ⟨?_, ih (idx + 1)⟩
      intro b hb
      have hbmem : b ∈ pctList total (idx + 1) rest := List.mem_of_mem_head? hb
      exact le_trans (progressPct_mono total (by omega))
        (pctList_lower total rest (idx + 1) b hbmem)

theorem progressTrace_transfer (dest : Dest) (sname pname : String)
    (tracks : List (Option Track)) (user pid : String)
    (h : dest.create_playlist pname ("Transferred from " ++ pyTitle sname) = .ok pid) :
    progressTrace (transfer_playlist dest sname pname tracks user).2
      = 0 :: (pctList tracks.length 0 tracks ++ [100]) := by
  have hr := runLoop_events_progress dest user pid tracks.length tracks 0
    { added := 0, not_found := [], events := [] }
  simp only [transfer_playlist, h]
  rw [progressTrace_append, progressTrace_append, hr]
  simp [progressTrace]

/-- C1 (counterexample): on a three-track playlist the percentage written
while processing the track at index 1 is the truncated `66`, not
`round(100 * 2 / 3) = 67` as the claim states; and the truncation is of
the binary64 product, which can even undercut the exact floor —
`int((29/100)*100)` is `28`, not `⌊100·29/100⌋ = 29`. -/
theorem progress_percentage_round_cx :
    progressTrace (transfer_playlist sampleDest "spotify" "Mix" sampleTracks "u").2
        = [0, 33, 66, 100, 100]
    ∧ specRound (100 * (1 + 1)) 3 = 67
    ∧ (66 : Nat) ≠ specRound (100 * (1 + 1)) 3
    ∧ progressPct 28 100 = 28
    ∧ (100 * (28 + 1)) / 100 = 29 :=
  ⟨by decide, by decide, by decide, by decide, by decide⟩

/-- C1 (amended): the percentage written while processing the track at
zero-based index `i` of a `total`-track playlist is
`progressPct i total = int(((i+1)/total)*100)` evaluated in IEEE-754
binary64 arithmetic (round-to-nearest-even division, round-to-nearest-even
multiplication by 100, truncation toward zero) — the full write sequence
is the initial `0`, then `progressPct i total` for each non-falsy track
in index order, then the final `100`. -/
theorem progress_percentage_truncated (dest : Dest) (sname pname : String)
    (tracks : List (Option Track)) (user pid : String)
    (h : dest.create_playlist pname ("Transferred from " ++ pyTitle sname) = .ok pid) :
    progressTrace (transfer_playlist dest sname pname tracks user).2
      = 0 :: (pctList tracks.length 0 tracks ++ [100]) :=
  progressTrace_transfer dest sname pname tracks user pid h

theorem progress_percentage_truncated_witness :
    progressTrace (transfer_playlist sampleDest "spotify" "Mix" sampleTracks "u").2
      = 0 :: (pctList sampleTracks.length 0 sampleTracks ++ [100]) :=
  progress_percentage_truncated sampleDest "spotify" "Mix" sampleTracks "u" "dest1" rfl

/-- C7: within one transfer whose destination playlist was created, the
stored percentage never decreases across the sequence of writes, and the
final write is exactly `100`. -/
theorem progress_monotone_ends_at_100 (dest : Dest) (sname pname : String)
    (tracks : List (Option Track)) (user pid : String)
    (h : dest.create_playlist pname ("Transferred from " ++ pyTitle sname) = .ok pid) :
    List.Chain' (· ≤ ·) (progressTrace (transfer_playlist dest sname pname tracks user).2)
    ∧ (progressTrace (transfer_playlist dest sname pname tracks user).2).getLast?
        = some 100 := by
  rw [progressTrace_transfer dest sname pname tracks user pid h]
  constructor
  · refine List.chain'_cons'.mpr ⟨fun b _ => Nat.zero_le b, ?_⟩
    refine List.chain'_append.mpr
      ⟨pctList_chain tracks.length tracks 0, List.chain'_singleton 100, ?_⟩
    intro x hx y hy
    simp only [List.head?_cons, Option.mem_def, Option.some.injEq] at hy
    subst hy
    exact pctList_le_100 tracks.length tracks 0 x (by omega)
      (List.mem_of_mem_getLast? hx)
  · rw [show (0 :: (pctList tracks.length 0 tracks ++ [100]))
        = (0 :: pctList tracks.length 0 tracks) ++ [100] from rfl]
    exact List.getLast?_concat _

theorem progress_monotone_ends_at_100_witness :
    List.Chain' (· ≤ ·)
      (progressTrace (transfer_playlist sampleDest "spotify" "Mix" sampleTracks "u").2)
    ∧ (progressTrace (transfer_playlist sampleDest "spotify" "Mix" sampleTracks "u").2).getLast?
        = some 100 :=
  progress_monotone_ends_at_100 sampleDest "spotify" "Mix" sampleTracks "u" "dest1" rfl

theorem refresh_fail_session_unchanged (resp : RefreshResponse) (now : Nat) (s : Session)
    (h : (refresh_access_token resp now s).1 = false) :
    (refresh_access_token resp now s).2 = s := by
  cases hrt : s.refresh_token with
  | none => simp [refresh_access_token, hrt]
  | some rt =>
    by_cases hrt0 : rt = ""
    · simp [refresh_access_token, hrt, hrt0]
    · cases resp with
      | httpError => simp [refresh_access_token, hrt, hrt0]
      | ok a r lt => simp [refresh_access_token, hrt, hrt0] at h

/-- C2: with a truthy cached token and a truthy recorded expiry,
`get_valid_token` returns the cached token and leaves the session
untouched while `now + 300 < expiry`; once `now + 300 >= expiry` it
invokes `refresh_access_token`; after a failed refresh it returns `none`
with the session — including the stale access token — byte-for-byte
unchanged; and with no recorded expiry the cached token is returned
without attempting refresh. -/
theorem get_valid_token_window :
    (∀ (resp : RefreshResponse) (now : Nat) (s : Session) (t : String) (exp : Nat),
        s.token = some t → t ≠ "" → s.token_expires = some exp → exp ≠ 0 →
        now + 300 < exp → get_valid_token resp now s = ⟨some t, s, false⟩)
    ∧ (∀ (resp : RefreshResponse) (now : Nat) (s : Session) (t : String) (exp : Nat),
        s.token = some t → t ≠ "" → s.token_expires = some exp → exp ≠ 0 →
        exp ≤ now + 300 → (get_valid_token resp now s).refreshAttempted = true)
    ∧ (∀ (resp : RefreshResponse) (now : Nat) (s : Session) (t : String) (exp : Nat),
        s.token = some t → t ≠ "" → s.token_expires = some exp → exp ≠ 0 →
        exp ≤ now + 300 → (refresh_access_token resp now s).1 = false →
        get_valid_token resp now s = ⟨none, s, true⟩)
    ∧ (∀ (resp : RefreshResponse) (now : Nat) (s : Session) (t : String),
        s.token = some t → t ≠ "" → s.token_expires = none →
        get_valid_token resp now s = ⟨some t, s, false⟩) := by
  refine ⟨?_, ?_, ?_, ?_⟩
  · intro resp now s t exp h1 h2 h3 h4 h5
    have hlt : ¬ (exp ≤ now + 300) := by omega
    simp only [get_valid_token, h1, h3]
    simp [h2, h4, ge_iff_le, hlt]
  · intro resp now s t exp h1 h2 h3 h4 h5
    simp only [get_valid_token, h1, h3]
    simp only [beq_iff_eq, h2, if_false, h4, ge_iff_le, h5, if_true]
    rcases hra : refresh_access_token resp now s with ⟨b, s2⟩
    cases b <;> simp
  · intro resp now s t exp h1 h2 h3 h4 h5 h6
    have hs2 := refresh_fail_session_unchanged resp now s h6
    rcases hra : refresh_access_token resp now s with ⟨b, s2⟩
    rw [hra] at h6 hs2
    simp only at h6 hs2
    subst h6
    subst hs2
    simp only [get_valid_token, h1, h3]
    simp [h2, h4, ge_iff_le, h5, hra]
  · intro resp now s t h1 h2 h3
    simp only [get_valid_token, h1, h3]
    simp [h2]

theorem get_valid_token_window_witness :
    get_valid_token .httpError 0 ⟨some "tok", some "rt", some 10000⟩
        = ⟨some "tok", ⟨some "tok", some "rt", some 10000⟩, false⟩
    ∧ (get_valid_token .httpError 0 ⟨some "tok", some "rt", some 100⟩).refreshAttempted = true
    ∧ get_valid_token .httpError 0 ⟨some "tok", some "rt", some 100⟩
        = ⟨none, ⟨some "tok", some "rt", some 100⟩, true⟩
    ∧ get_valid_token .httpError 0 ⟨some "tok", none, none⟩
        = ⟨some "tok", ⟨some "tok", none, none⟩, false⟩ :=
  ⟨get_valid_token_window.1 .httpError 0 ⟨some "tok", some "rt", some 10000⟩ "tok" 10000
      rfl (by decide) rfl (by decide) (by omega),
   get_valid_token_window.2.1 .httpError 0 ⟨some "tok", some "rt", some 100⟩ "tok" 100
      rfl (by decide) rfl (by decide) (by omega),
   get_valid_token_window.2.2.1 .httpError 0 ⟨some "tok", some "rt", some 100⟩ "tok" 100
      rfl (by decide) rfl (by decide) (by omega) (by decide),
   get_valid_token_window.2.2.2 .httpError 0 ⟨some "tok", none, none⟩ "tok"
      rfl (by decide) rfl⟩

/-- C3 (counterexample): a successful refresh whose response declares a
7200-second lifetime still stores expiry `now + 3600` — the response's
`expires_in` field is never read, so the claim's "provider-declared
lifetime" clause fails. -/
theorem refresh_expiry_ignores_lifetime_cx :
    refresh_access_token (.ok (some "new") none (some 7200)) 1000
        ⟨some "old", some "rt", some 50⟩
      = (true, ⟨some "new", some "rt", some (1000 + 3600)⟩)
    ∧ (1000 + 3600 : Nat) ≠ 1000 + 7200 :=
  ⟨by decide, by decide⟩

/-- C3 (amended): on every successful refresh the stored expiry becomes
`now + 3600` unconditionally — the provider-declared lifetime in the
response is ignored, and the result does not depend on it at all — while
the stored refresh token is overwritten only when the provider supplied
a truthy new one and retained otherwise, and the access token is
overwritten with the response's. -/
theorem refresh_success_stores_default_expiry :
    (∀ (now : Nat) (s : Session) (rt : String) (access refresh : Option String)
        (lt : Option Nat),
        s.refresh_token = some rt → rt ≠ "" →
        (refresh_access_token (.ok access refresh lt) now s).1 = true
        ∧ ((refresh_access_token (.ok access refresh lt) now s).2).token_expires
            = some (now + 3600)
        ∧ ((refresh_access_token (.ok access refresh lt) now s).2).token = access
        ∧ (∀ r, refresh = some r → r ≠ "" →
            ((refresh_access_token (.ok access refresh lt) now s).2).refresh_token = some r)
        ∧ (refresh = none ∨ refresh = some "" →
            ((refresh_access_token (.ok access refresh lt) now s).2).refresh_token
              = s.refresh_token))
    ∧ (∀ (now : Nat) (s : Session) (access refresh : Option String) (lt lt2 : Option Nat),
        refresh_access_token (.ok access refresh lt) now s
          = refresh_access_token (.ok access refresh lt2) now s) := by
  constructor
  · intro now s rt access refresh lt h1 h2
    simp only [refresh_access_token, h1]
    simp only [beq_iff_eq, h2, if_false]
    refine ⟨by trivial, by rfl, by rfl, ?_, ?_⟩
    · intro r hr hr2
      subst hr
      simp [save_tokens, truthyStr, hr2]
    · intro hr
      rcases hr with hr | hr <;> subst hr
      · simp [save_tokens, truthyStr, h1, h2]
      · simp [save_tokens, truthyStr, h1]
  · intro now s access refresh lt lt2
    cases hrt : s.refresh_token with
    | none => simp [refresh_access_token, hrt]
    | some rt =>
      by_cases h0 : rt = "" <;> simp [refresh_access_token, hrt, h0]

theorem refresh_success_stores_default_expiry_witness :
    (refresh_access_token (.ok (some "a") (some "nr") (some 9)) 5
        ⟨some "o", some "rt", none⟩).1 = true
    ∧ ((refresh_access_token (.ok (some "a") (some "nr") (some 9)) 5
        ⟨some "o", some "rt", none⟩).2).token_expires = some (5 + 3600)
    ∧ ((refresh_access_token (.ok (some "a") (some "nr") (some 9)) 5
        ⟨some "o", some "rt", none⟩).2).token = some "a"
    ∧ (∀ r, (some "nr" : Option String) = some r → r ≠ "" →
        ((refresh_access_token (.ok (some "a") (some "nr") (some 9)) 5
          ⟨some "o", some "rt", none⟩).2).refresh_token = some r)
    ∧ ((some "nr" : Option String) = none ∨ (some "nr" : Option String) = some "" →
        ((refresh_access_token (.ok (some "a") (some "nr") (some 9)) 5
          ⟨some "o", some "rt", none⟩).2).refresh_token
          = (⟨some "o", some "rt", none⟩ : Session).refresh_token) :=
  refresh_success_stores_default_expiry.1 5 ⟨some "o", some "rt", none⟩ "rt"
    (some "a") (some "nr") (some 9) rfl (by decide)

theorem replaceSpecial_mem (l : List Char) (c : Char) (h : c ∈ replaceSpecial l) :
    isKeptChar c = true := by
  simp only [replaceSpecial, List.mem_map] at h
  obtain ⟨a, _, ha⟩ := h
  by_cases hk : isKeptChar a
  · rw [if_pos hk] at ha
    subst ha
    exact hk
  · rw [if_neg hk] at ha
    subst ha
    decide

theorem collapseSpaces_mem : ∀ (l : List Char) (c : Char), c ∈ collapseSpaces l →
    c = ' ' ∨ (c ∈ l ∧ isSpaceChar c = false) := by
  intro l
  induction l using collapseSpaces.induct with
  | case1 => intro c h; simp [collapseSpaces] at h
  | case2 x rest hx ih =>
    intro c h
    rw [collapseSpaces, if_pos hx] at h
    rcases List.mem_cons.mp h with h | h
    · left; exact h
    · rcases ih c h with h | ⟨hm, hns⟩
      · left; exact h
      · right
        exact ⟨List.mem_cons_of_mem x ((List.dropWhile_suffix isSpaceChar).subset hm), hns⟩
  | case3 y rest hy ih =>
    intro c h
    rw [collapseSpaces, if_neg hy] at h
    rcases List.mem_cons.mp h with rfl | h
    · right
      exact ⟨List.mem_cons_self c rest, by simpa using hy⟩
    · rcases ih c h with h | ⟨hm, hns⟩
      · left; exact h
      · right; exact ⟨List.mem_cons_of_mem y hm, hns⟩

theorem stripChars_mem (l : List Char) (c : Char) (h : c ∈ stripChars l) : c ∈ l := by
  rw [stripChars, List.mem_reverse] at h
  have h2 := (List.dropWhile_suffix isSpaceChar).subset h
  rw [List.mem_reverse] at h2
  exact (List.dropWhile_suffix isSpaceChar).subset h2

theorem sanitizeList_mem (text : List Char) (c : Char) (h : c ∈ sanitizeList text) :
    (isWordChar c || c == '\x27' || c == '-' || c == ' ') = true := by
  have h1 := stripChars_mem _ _ h
  rcases collapseSpaces_mem _ _ h1 with rfl | ⟨h2, h3⟩
  · simp
  · have h4 := replaceSpecial_mem _ _ h2
    rw [isKeptChar, h3] at h4
    simp only [Bool.or_eq_true] at h4 ⊢
    tauto

theorem head_dropWhile_not (p : Char → Bool) :
    ∀ (l : List Char) (c : Char), (l.dropWhile p).head? = some c → p c = false := by
  intro l
  induction l with
  | nil => intro c h; simp [List.dropWhile] at h
  | cons a rest ih =>
    intro c h
    by_cases hp : p a
    · rw [List.dropWhile_cons_of_pos hp] at h
      exact ih c h
    · rw [List.dropWhile_cons_of_neg hp] at h
      simp only [List.head?_cons, Option.some.injEq] at h
      subst h
      simpa using hp

theorem collapseSpaces_head (l : List Char)
    (hl : ∀ c, l.head? = some c → isSpaceChar c = false) :
    ∀ c, (collapseSpaces l).head? = some c → isSpaceChar c = false := by
  cases l with
  | nil => intro c h; simp [collapseSpaces] at h
  | cons a rest =>
    intro c h
    have ha := hl a rfl
    rw [collapseSpaces, if_neg (by simp [ha])] at h
    simp only [List.head?_cons, Option.some.injEq] at h
    subst h
    exact ha

theorem collapseSpaces_chain (l : List Char) :
    List.Chain' (fun a b => ¬(isSpaceChar a = true ∧ isSpaceChar b = true))
      (collapseSpaces l) := by
  induction l using collapseSpaces.induct with
  | case1 => simp [collapseSpaces]
  | case2 x rest hx ih =>
    rw [collapseSpaces, if_pos hx]
    refine List.chain'_cons'.mpr ⟨?_, ih⟩
    intro b hb
    have hbns : isSpaceChar b = false :=
      collapseSpaces_head _ (fun d hd => head_dropWhile_not isSpaceChar rest d hd) b hb
    simp [hbns]
  | case3 y rest hy ih =>
    rw [collapseSpaces, if_neg hy]
    refine List.chain'_cons'.mpr ⟨?_, ih⟩
    intro b hb
    simp only [Bool.not_eq_true] at hy
    simp [hy]

theorem stripChars_chain {R : Char → Char → Prop}
    (l : List Char) (h : List.Chain' R l) : List.Chain' R (stripChars l) := by
  have h1 : List.Chain' R (l.dropWhile isSpaceChar) := by
    have heq := List.takeWhile_append_dropWhile isSpaceChar l
    rw [← heq] at h
    exact h.right_of_append
  have h2 : List.Chain' (flip R) (l.dropWhile isSpaceChar).reverse :=
    List.chain'_reverse.mpr h1
  have h3 : List.Chain' (flip R) ((l.dropWhile isSpaceChar).reverse.dropWhile isSpaceChar) := by
    have heq := List.takeWhile_append_dropWhile isSpaceChar (l.dropWhile isSpaceChar).reverse
    rw [← heq] at h2
    exact h2.right_of_append
  rw [stripChars]
  exact List.chain'_reverse.mpr h3

theorem stripChars_last (l : List Char) :
    ∀ c, (stripChars l).getLast? = some c → isSpaceChar c = false := by
  intro c h
  rw [stripChars, List.getLast?_reverse] at h
  exact head_dropWhile_not isSpaceChar _ c h

theorem stripChars_head (l : List Char) :
    ∀ c, (stripChars l).head? = some c → isSpaceChar c = false := by
  intro c h
  rw [stripChars, List.head?_reverse] at h
  obtain ⟨t, ht⟩ := List.dropWhile_suffix (l := (l.dropWhile isSpaceChar).reverse) isSpaceChar
  have hne : (l.dropWhile isSpaceChar).reverse.dropWhile isSpaceChar ≠ [] := by
    intro hnil
    rw [hnil] at h
    simp at h
  have hM : ((l.dropWhile isSpaceChar).reverse).getLast? = some c := by
    rw [← ht, List.getLast?_append_of_ne_nil t hne]
    exact h
  rw [List.getLast?_reverse] at hM
  exact head_dropWhile_not isSpaceChar l c hM

theorem sanitizeList_chain (text : List Char) :
    List.Chain' (fun a b => ¬(isSpaceChar a = true ∧ isSpaceChar b = true))
      (sanitizeList text) :=
  stripChars_chain _ (collapseSpaces_chain _)

/-- C4 (counterexample): the underscore is in the regex class `\w`, so
`sanitize` keeps it, while the claim's character inventory (letters,
digits, spaces, apostrophes, hyphens) excludes it. -/
theorem sanitize_underscore_cx :
    sanitize_search_query "_" = "_" ∧ specKeptChar '_' = false := by
  refine ⟨?_, by decide⟩
  simp [sanitize_search_query, sanitizeList, stripChars, collapseSpaces, replaceSpecial,
    removeEnclosed, dropThroughClose, isKeptChar, isWordChar, isSpaceChar, List.dropWhile]

/-- C4 (amended): every character of `sanitize` output is a word
character (letter, digit or underscore), an apostrophe, a hyphen, or a
single space; no two adjacent spaces survive; and the output neither
starts nor ends with whitespace. -/
theorem sanitize_output_characters :
    ∀ text : String,
      (∀ c ∈ (sanitize_search_query text).data,
          (isWordChar c || c == '\x27' || c == '-' || c == ' ') = true)
      ∧ List.Chain' (fun a b => ¬(a = ' ' ∧ b = ' ')) (sanitize_search_query text).data
      ∧ (∀ c, ((sanitize_search_query text).data).head? = some c → isSpaceChar c = false)
      ∧ (∀ c, ((sanitize_search_query text).data).getLast? = some c →
          isSpaceChar c = false) := by
  intro text
  by_cases hx : text = ""
  · subst hx
    refine ⟨?_, ?_, ?_, ?_⟩ <;> simp [sanitize_search_query]
  · have hdata : (sanitize_search_query text).data = sanitizeList text.data := by
      rw [sanitize_search_query, if_neg hx]
    rw [hdata]
    refine ⟨fun c hc => sanitizeList_mem text.data c hc, ?_,
      stripChars_head _, stripChars_last _⟩
    refine (sanitizeList_chain text.data).imp ?_
    intro a b hab ⟨ha, hb⟩
    exact hab ⟨by simp [ha, isSpaceChar], by simp [hb, isSpaceChar]⟩

theorem sanitize_output_characters_witness :
    (isWordChar 'a' || 'a' == '\x27' || 'a' == '-' || 'a' == ' ') = true
    ∧ List.Chain' (fun a b => ¬(a = ' ' ∧ b = ' '))
        (sanitize_search_query "a(b! c)d_").data
    ∧ isSpaceChar 'a' = false :=
  ⟨(sanitize_output_characters "a(b! c)d_").1 'a' (by
      simp [sanitize_search_query, sanitizeList, stripChars, collapseSpaces, replaceSpecial,
        removeEnclosed, dropThroughClose, isKeptChar, isWordChar, isSpaceChar, List.dropWhile]),
   (sanitize_output_characters "a(b! c)d_").2.1,
   (sanitize_output_characters "a(b! c)d_").2.2.1 'a' (by
      simp [sanitize_search_query, sanitizeList, stripChars, collapseSpaces, replaceSpecial,
        removeEnclosed, dropThroughClose, isKeptChar, isWordChar, isSpaceChar, List.dropWhile])⟩

theorem dropWhile_eq_self_of_head (p : Char → Bool) (l : List Char)
    (h : ∀ c, l.head? = some c → p c = false) : l.dropWhile p = l := by
  cases l with
  | nil => rfl
  | cons a rest => rw [List.dropWhile_cons_of_neg (by simp [h a rfl])]

theorem removeEnclosed_id (op cl : Char) : ∀ (l : List Char),
    (∀ c ∈ l, (c == op) = false) → removeEnclosed op cl l = l := by
  intro l
  induction l using removeEnclosed.induct (op) (cl) with
  | case1 => intro _; simp [removeEnclosed]
  | case2 c rest hop rest2 hdrop ih =>
    intro h
    exact absurd (h c (List.mem_cons_self c rest)) (by simp [hop])
  | case3 c rest hop hdrop ih =>
    intro h
    exact absurd (h c (List.mem_cons_self c rest)) (by simp [hop])
  | case4 c rest hop ih =>
    intro h
    rw [removeEnclosed, if_neg hop, ih (fun d hd => h d (List.mem_cons_of_mem c hd))]

theorem replaceSpecial_id : ∀ (l : List Char),
    (∀ c ∈ l, isKeptChar c = true) → replaceSpecial l = l := by
  intro l
  induction l with
  | nil => intro _; rfl
  | cons a rest ih =>
    intro h
    simp only [replaceSpecial, List.map_cons]
    rw [if_pos (h a (List.mem_cons_self a rest))]
    have hr := ih (fun c hc => h c (List.mem_cons_of_mem a hc))
    simp only [replaceSpecial] at hr
    rw [hr]

theorem collapseSpaces_id : ∀ (l : List Char),
    List.Chain' (fun a b => ¬(isSpaceChar a = true ∧ isSpaceChar b = true)) l →
    (∀ c ∈ l, isSpaceChar c = true → c = ' ') → collapseSpaces l = l := by
  intro l
  induction l using collapseSpaces.induct with
  | case1 => intro _ _; simp [collapseSpaces]
  | case2 x rest hx ih =>
    intro hch hsp
    have hx2 : x = ' ' := hsp x (List.mem_cons_self x rest) hx
    have hdrop : rest.dropWhile isSpaceChar = rest := by
      apply dropWhile_eq_self_of_head
      intro c hc
      have h2 := (List.chain'_cons'.mp hch).1 c hc
      by_contra hcc
      simp only [Bool.not_eq_false] at hcc
      exact h2 ⟨hx, hcc⟩
    rw [collapseSpaces, if_pos hx, hdrop]
    rw [hdrop] at ih
    rw [ih ((List.chain'_cons'.mp hch).2)
      (fun c hc hcs => hsp c (List.mem_cons_of_mem x hc) hcs), hx2]
  | case3 y rest hy ih =>
    intro hch hsp
    rw [collapseSpaces, if_neg hy]
    rw [ih ((List.chain'_cons'.mp hch).2)
      (fun c hc hcs => hsp c (List.mem_cons_of_mem y hc) hcs)]

theorem stripChars_id (l : List Char)
    (hh : ∀ c, l.head? = some c → isSpaceChar c = false)
    (hl : ∀ c, l.getLast? = some c → isSpaceChar c = false) : stripChars l = l := by
  rw [stripChars, dropWhile_eq_self_of_head isSpaceChar l hh,
    dropWhile_eq_self_of_head isSpaceChar l.reverse
      (fun c hc => hl c (by rwa [List.head?_reverse] at hc))]
  exact List.reverse_reverse l

theorem sanitizeList_head (text : List Char) :
    ∀ c, (sanitizeList text).head? = some c → isSpaceChar c = false :=
  stripChars_head _

theorem sanitizeList_last (text : List Char) :
    ∀ c, (sanitizeList text).getLast? = some c → isSpaceChar c = false :=
  stripChars_last _

theorem sanitizeList_space_is_blank (text : List Char) :
    ∀ c ∈ sanitizeList text, isSpaceChar c = true → c = ' ' := by
  intro c hc hcs
  have h := sanitizeList_mem text c hc
  simp only [isSpaceChar, Bool.or_eq_true, beq_iff_eq] at hcs
  rcases hcs with ((((rfl | rfl) | rfl) | rfl) | rfl) | rfl
  · rfl
  all_goals exact absurd h (by decide)

theorem sanitizeList_no_char (text : List Char) (op : Char)
    (hop : (isWordChar op || op == '\x27' || op == '-' || op == ' ') = false) :
    ∀ c ∈ sanitizeList text, (c == op) = false := by
  intro c hc
  have h := sanitizeList_mem text c hc
  by_contra hcc
  simp only [Bool.not_eq_false, beq_iff_eq] at hcc
  subst hcc
  rw [h] at hop
  cases hop

theorem sanitizeList_kept (text : List Char) :
    ∀ c ∈ sanitizeList text, isKeptChar c = true := by
  intro c hc
  have h := sanitizeList_mem text c hc
  simp only [Bool.or_eq_true, beq_iff_eq] at h
  rcases h with ((h | rfl) | rfl) | rfl
  · simp [isKeptChar, h]
  · decide
  · decide
  · decide

theorem sanitizeList_idem (text : List Char) :
    sanitizeList (sanitizeList text) = sanitizeList text := by
  have h1 : removeEnclosed '(' ')' (sanitizeList text) = sanitizeList text :=
    removeEnclosed_id '(' ')' _ (sanitizeList_no_char text '(' (by decide))
  have h2 : removeEnclosed '[' ']' (sanitizeList text) = sanitizeList text :=
    removeEnclosed_id '[' ']' _ (sanitizeList_no_char text '[' (by decide))
  have h3 : replaceSpecial (sanitizeList text) = sanitizeList text :=
    replaceSpecial_id _ (sanitizeList_kept text)
  have h4 : collapseSpaces (sanitizeList text) = sanitizeList text :=
    collapseSpaces_id _ (sanitizeList_chain text) (sanitizeList_space_is_blank text)
  have h5 : stripChars (sanitizeList text) = sanitizeList text :=
    stripChars_id _ (sanitizeList_head text) (sanitizeList_last text)
  rw [sanitizeList, h1, h2, h3, h4, h5]

/-- C8: `sanitize` is idempotent — applying it to its own output changes
nothing, for every input string. -/
theorem sanitize_idempotent (x : String) :
    sanitize_search_query (sanitize_search_query x) = sanitize_search_query x := by
  by_cases hx : x = ""
  · subst hx
    rfl
  · by_cases hy : sanitize_search_query x = ""
    · rw [sanitize_search_query, if_pos hy, hy]
    · rw [sanitize_search_query, if_neg hy, sanitize_search_query, if_neg hx]
      exact congrArg String.mk (sanitizeList_idem x.data)

end ThatsAWrap
